import Mathlib

/-!
# Verification of the surf-vcr record/replay middleware core (src/lib.rs)

A shallow embedding of the interaction-capture-and-matching engine of
surf-vcr. Rust byte slices (`&[u8]`, `Vec<u8>`) are modelled as `List Nat`
(each element a byte value); a Rust `String` is modelled by the list of its
UTF-8 bytes, which is exactly its runtime representation, so string/byte
conversions (`str::from_utf8`, `as_str`, `as_bytes`) are identities on the
underlying byte list. `HashMap<String, Vec<String>>` is modelled as an
association list `List (HeaderName × List HeaderValue)`; the hash-map
invariant (keys pairwise distinct) appears as an explicit `Nodup` hypothesis
where a proof needs it. Effectful code is embedded as explicit state passing
(the global `CASSETTES` / `RECORDERS` maps become explicit arguments and
results) or, for the record-mode append path, as an event trace listing the
effectful calls in program order.
-/

set_option autoImplicit false

namespace SurfVcr

/-! ## UTF-8 validity

`Body::from(&[u8])` (src/lib.rs:163-170) classifies the bytes with
`std::str::from_utf8`, which accepts exactly well-formed UTF-8.  The
validator below is the standard byte-level UTF-8 acceptor used by the Rust
core library: ASCII bytes stand alone, two-byte sequences start at
0xC2..0xDF, three-byte sequences exclude overlongs (0xE0 requires a second
byte in 0xA0..0xBF) and surrogates (0xED requires 0x80..0x9F), four-byte
sequences exclude overlongs (0xF0 requires 0x90..0xBF) and values past
U+10FFFF (0xF4 requires 0x80..0x8F). -/

/-- A UTF-8 continuation byte: `0x80..=0xBF`. -/
def isCont (b : Nat) : Bool := 0x80 ≤ b && b ≤ 0xBF

/-- Byte-level UTF-8 validity, as decided by `std::str::from_utf8`. -/
def validUtf8 : List Nat → Bool
  | [] => true
  | b0 :: rest =>
    if b0 ≤ 0x7F then validUtf8 rest
    else if 0xC2 ≤ b0 && b0 ≤ 0xDF then
      match rest with
      | b1 :: r => isCont b1 && validUtf8 r
      | [] => false
    else if b0 == 0xE0 then
      match rest with
      | b1 :: b2 :: r => (0xA0 ≤ b1 && b1 ≤ 0xBF) && isCont b2 && validUtf8 r
      | _ => false
    else if (0xE1 ≤ b0 && b0 ≤ 0xEC) || (0xEE ≤ b0 && b0 ≤ 0xEF) then
      match rest with
      | b1 :: b2 :: r => isCont b1 && isCont b2 && validUtf8 r
      | _ => false
    else if b0 == 0xED then
      match rest with
      | b1 :: b2 :: r => (0x80 ≤ b1 && b1 ≤ 0x9F) && isCont b2 && validUtf8 r
      | _ => false
    else if b0 == 0xF0 then
      match rest with
      | b1 :: b2 :: b3 :: r =>
          (0x90 ≤ b1 && b1 ≤ 0xBF) && isCont b2 && isCont b3 && validUtf8 r
      | _ => false
    else if 0xF1 ≤ b0 && b0 ≤ 0xF3 then
      match rest with
      | b1 :: b2 :: b3 :: r => isCont b1 && isCont b2 && isCont b3 && validUtf8 r
      | _ => false
    else if b0 == 0xF4 then
      match rest with
      | b1 :: b2 :: b3 :: r =>
          (0x80 ≤ b1 && b1 ≤ 0x8F) && isCont b2 && isCont b3 && validUtf8 r
      | _ => false
    else false

/-! ## Body (src/lib.rs:156-170) -/

/-- `enum Body { Bytes(Vec<u8>), Str(String) }`.  The `Str` payload is the
Rust `String`, modelled by its UTF-8 byte list. -/
inductive Body where
  | Bytes (bytes : List Nat)
  | Str (s : List Nat)
deriving DecidableEq, Repr

/-- `impl From<&[u8]> for Body` (src/lib.rs:163-170): if the bytes are valid
UTF-8 the body is `Str` of the decoded string (same bytes), otherwise
`Bytes` of a copy of the bytes. -/
def Body.ofBytes (bytes : List Nat) : Body :=
  if validUtf8 bytes then .Str bytes else .Bytes bytes

/-- The bytes a body contributes when written back onto a live object
(`set_body(b.as_slice())` / `set_body(s.as_str())`, src/lib.rs:280-283):
a `Str` body contributes its UTF-8 bytes, a `Bytes` body its raw bytes. -/
def Body.toBytes : Body → List Nat
  | .Bytes b => b
  | .Str s => s

/-- C3: capturing a valid-UTF-8 byte sequence produces a `Str` (Text) body
whose decoded content is exactly those bytes; capturing anything else
produces a `Bytes` (Binary) body equal to the input; and re-encoding the
captured body reproduces the original bytes exactly. -/
theorem body_classification (B : List Nat) :
    (validUtf8 B = true → Body.ofBytes B = Body.Str B) ∧
    (validUtf8 B = false → Body.ofBytes B = Body.Bytes B) ∧
    (Body.ofBytes B).toBytes = B := by
  refine ⟨fun h => by simp [Body.ofBytes, h], fun h => by simp [Body.ofBytes, h], ?_⟩
  by_cases h : validUtf8 B <;> simp [Body.ofBytes, h, Body.toBytes]

/-- Witness for `body_classification`: the UTF-8 bytes of `"hé"` are
classified as text, and `[0xFF, 0x68]` (an invalid lead byte) as binary;
both re-encode to themselves. -/
theorem body_classification_witness :
    Body.ofBytes [0x68, 0xC3, 0xA9] = Body.Str [0x68, 0xC3, 0xA9] ∧
    Body.ofBytes [0xFF, 0x68] = Body.Bytes [0xFF, 0x68] ∧
    (Body.ofBytes [0x68, 0xC3, 0xA9]).toBytes = [0x68, 0xC3, 0xA9] ∧
    (Body.ofBytes [0xFF, 0x68]).toBytes = [0xFF, 0x68] :=
  ⟨(body_classification [0x68, 0xC3, 0xA9]).1 (by decide),
   (body_classification [0xFF, 0x68]).2.1 (by decide),
   (body_classification [0x68, 0xC3, 0xA9]).2.2,
   (body_classification [0xFF, 0x68]).2.2⟩

/-! ## Headers

`HashMap<String, Vec<String>>` modelled as an association list.  Header
names and values are abstract strings; we keep Lean `String` for them. -/

/-- Association-list model of `HashMap<String, Vec<String>>`. -/
abbrev HeaderMap := List (String × List String)

/-- `HashMap::get` / `map[key]`: the value list of the first entry whose key
matches. -/
def hmLookup (h : HeaderMap) (k : String) : Option (List String) :=
  match h with
  | [] => none
  | (k', vs) :: rest => if k' = k then some vs else hmLookup rest k

/-- `HashMap` equality (`PartialEq for HashMap`): same size and every entry
of the left map is present with an equal value in the right map.  On
association lists with distinct keys this coincides with equality as finite
maps. -/
def hmBeq (h1 h2 : HeaderMap) : Bool :=
  h1.length == h2.length &&
    h1.all fun p => hmLookup h2 p.1 == some p.2

/-! ## VcrRequest and VcrResponse (src/lib.rs:178-229) -/

/-- `struct VcrRequest { method, url, headers, body }` (src/lib.rs:179-184).
`Method` and `Url` are abstract scalar types; strings model them. -/
structure VcrRequest where
  method : String
  url : String
  headers : HeaderMap
  body : Body
deriving DecidableEq, Repr

/-- `struct VcrResponse { status, version, headers, body }`
(src/lib.rs:222-229).  `StatusCode` is a number, `Version` an enumerated
protocol version modelled as a number. -/
structure VcrResponse where
  status : Nat
  version : Option Nat
  headers : HeaderMap
  body : Body
deriving DecidableEq, Repr

/-- The derived `PartialEq for VcrRequest` used by the replay scan
(`|x| x == &request`, src/lib.rs:95): field-wise equality, with the headers
compared as hash maps. -/
def vcrRequestEq (a b : VcrRequest) : Bool :=
  a.method == b.method && a.url == b.url &&
    hmBeq a.headers b.headers && a.body == b.body

/-! ## Live response and reconstruction (src/lib.rs:267-287) -/

/-- The live `http::Response` as far as the middleware reads or writes it:
status, optional version, headers, body bytes. -/
structure HttpResponse where
  status : Nat
  version : Option Nat
  headers : HeaderMap
  body : List Nat
deriving DecidableEq, Repr

/-- `Response::append_header(name, value)`: appends `value` to the value
list of `name`, creating the entry if absent. -/
def appendHeader (h : HeaderMap) (name value : String) : HeaderMap :=
  match h with
  | [] => [(name, [value])]
  | (k, vs) :: rest =>
    if k = name then (k, vs ++ [value]) :: rest
    else (k, vs) :: appendHeader rest name value

/-- The inner loop of `From<&VcrResponse> for Response` (src/lib.rs:275-277):
append every stored value of one header, in stored order. -/
def appendValues (acc : HeaderMap) (k : String) (vs : List String) : HeaderMap :=
  vs.foldl (fun a v => appendHeader a k v) acc

/-- The header-rebuilding loop of `From<&VcrResponse> for Response`
(src/lib.rs:272-278): starting from the fresh response's empty header map,
append all stored values of every stored header. -/
def buildHeaders (hs : HeaderMap) : HeaderMap :=
  hs.foldl (fun acc kv => appendValues acc kv.1 kv.2) []

/-- `impl From<&VcrResponse> for Response` (src/lib.rs:267-287): a fresh
response with the stored status, the stored version, the headers appended
value by value, and the body set from the stored body. -/
def responseFromVcr (resp : VcrResponse) : HttpResponse :=
  { status := resp.status
    version := resp.version
    headers := buildHeaders resp.headers
    body := resp.body.toBytes }

/-- The ordered value list a live response reports for one header name
(empty when the header is absent). -/
def headerValuesOf (r : HttpResponse) (k : String) : List String :=
  (hmLookup r.headers k).getD []

/-! ### Lemmas about header rebuilding -/

theorem hmLookup_appendHeader (h : HeaderMap) (k v : String) (k2 : String) :
    hmLookup (appendHeader h k v) k2 =
      if k2 = k then some ((hmLookup h k).getD [] ++ [v]) else hmLookup h k2 := by
  induction h with
  | nil =>
    by_cases hk : k2 = k
    · subst hk; simp [appendHeader, hmLookup]
    · simp [appendHeader, hmLookup, hk, Ne.symm hk]
  | cons p rest ih =>
    obtain ⟨k', vs'⟩ := p
    by_cases h1 : k' = k
    · subst h1
      by_cases h2 : k2 = k'
      · subst h2; simp [appendHeader, hmLookup]
      · simp [appendHeader, hmLookup, h2, Ne.symm h2]
    · by_cases h2 : k' = k2
      · subst h2
        simp [appendHeader, hmLookup, h1, Ne.symm h1]
      · simp [appendHeader, hmLookup, h1, h2, ih]

theorem hmLookup_appendValues_ne (acc : HeaderMap) (k : String) (vs : List String)
    (k2 : String) (hne : k2 ≠ k) :
    hmLookup (appendValues acc k vs) k2 = hmLookup acc k2 := by
  induction vs generalizing acc with
  | nil => rfl
  | cons v rest ih =>
    rw [appendValues, List.foldl_cons, ← appendValues, ih,
      hmLookup_appendHeader, if_neg hne]

theorem hmLookup_appendValues_self (acc : HeaderMap) (k : String) (vs : List String)
    (hne : vs ≠ []) :
    hmLookup (appendValues acc k vs) k = some ((hmLookup acc k).getD [] ++ vs) := by
  induction vs generalizing acc with
  | nil => exact absurd rfl hne
  | cons v rest ih =>
    rw [appendValues, List.foldl_cons, ← appendValues]
    rcases rest with _ | ⟨v2, rest2⟩
    · rw [appendValues, List.foldl_nil, hmLookup_appendHeader, if_pos rfl]
    · rw [ih _ (by simp), hmLookup_appendHeader, if_pos rfl]
      simp

theorem hmLookup_appendValues_nil (acc : HeaderMap) (k : String) :
    appendValues acc k [] = acc := rfl

/-- Folding the append loop over entries whose keys avoid `k` leaves the
lookup of `k` unchanged. -/
theorem hmLookup_buildAux_notin (hs : HeaderMap) (acc : HeaderMap) (k : String)
    (hk : ∀ p ∈ hs, p.1 ≠ k) :
    hmLookup (hs.foldl (fun acc kv => appendValues acc kv.1 kv.2) acc) k
      = hmLookup acc k := by
  induction hs generalizing acc with
  | nil => rfl
  | cons p rest ih =>
    rw [List.foldl_cons, ih _ (fun q hq => hk q (List.mem_cons_of_mem _ hq)),
      hmLookup_appendValues_ne _ _ _ _ (Ne.symm (hk p (List.mem_cons_self _ _)))]

/-- Folding the append loop over entries with pairwise-distinct keys, none
already present in the accumulator, recovers the stored value list of every
stored key (an empty stored list yields an absent header). -/
theorem hmLookup_buildAux (hs : HeaderMap) (acc : HeaderMap) (k : String)
    (vs : List String)
    (hnd : (hs.map Prod.fst).Nodup)
    (hacc : ∀ p ∈ hs, hmLookup acc p.1 = none)
    (hfind : hmLookup hs k = some vs) :
    hmLookup (hs.foldl (fun acc kv => appendValues acc kv.1 kv.2) acc) k
      = if vs = [] then none else some vs := by
  induction hs generalizing acc with
  | nil => simp [hmLookup] at hfind
  | cons p rest ih =>
    obtain ⟨k0, vs0⟩ := p
    rw [List.map_cons, List.nodup_cons] at hnd
    by_cases hk : k0 = k
    · subst hk
      rw [hmLookup, if_pos rfl] at hfind
      injection hfind with hfind
      rw [List.foldl_cons]
      rw [hmLookup_buildAux_notin rest _ k0
        (fun q hq h => hnd.1 (List.mem_map.mpr ⟨q, hq, h⟩))]
      subst hfind
      rcases vs0 with _ | ⟨v, vrest⟩
      · rw [if_pos rfl, hmLookup_appendValues_nil]
        exact hacc _ (List.mem_cons_self _ _)
      · rw [if_neg (by simp), hmLookup_appendValues_self _ _ _ (by simp),
          hacc _ (List.mem_cons_self _ _)]
        simp
    · rw [hmLookup, if_neg hk] at hfind
      rw [List.foldl_cons]
      refine ih _ hnd.2 (fun q hq => ?_) hfind
      rw [hmLookup_appendValues_ne _ _ _ _ ?_]
      · exact hacc _ (List.mem_cons_of_mem _ hq)
      · intro h
        exact hnd.1 (List.mem_map.mpr ⟨q, hq, h⟩)

/-- C4: reconstructing a live response from a stored `VcrResponse`
reproduces the stored status, the stored (optional) protocol version, for
every stored header its full value list in stored order with multiplicity,
and the body bytes exactly (`Str` bodies as their UTF-8 bytes, `Bytes`
bodies as raw bytes).  The `Nodup` hypothesis is the `HashMap` invariant
that stored header names are pairwise distinct. -/
theorem response_reconstruction (resp : VcrResponse)
    (hnd : (resp.headers.map Prod.fst).Nodup) :
    (responseFromVcr resp).status = resp.status ∧
    (responseFromVcr resp).version = resp.version ∧
    (∀ k vs, hmLookup resp.headers k = some vs →
      headerValuesOf (responseFromVcr resp) k = vs) ∧
    (responseFromVcr resp).body = resp.body.toBytes := by
  refine ⟨rfl, rfl, fun k vs hfind => ?_, rfl⟩
  unfold headerValuesOf responseFromVcr buildHeaders
  rw [hmLookup_buildAux resp.headers [] k vs hnd (fun _ _ => rfl) hfind]
  by_cases hvs : vs = [] <;> simp [hvs]

/-- Witness for `response_reconstruction` at a concrete stored response with
two headers, one of them two-valued. -/
theorem response_reconstruction_witness :
    (responseFromVcr
      { status := 200, version := some 11,
        headers := [("set-cookie", ["a=1", "b=2"]), ("content-type", ["text/plain"])],
        body := Body.Str [0x6F, 0x6B] }).status = 200 ∧
    headerValuesOf (responseFromVcr
      { status := 200, version := some 11,
        headers := [("set-cookie", ["a=1", "b=2"]), ("content-type", ["text/plain"])],
        body := Body.Str [0x6F, 0x6B] }) "set-cookie" = ["a=1", "b=2"] :=
  ⟨(response_reconstruction _ (by simp)).1,
   (response_reconstruction
      { status := 200, version := some 11,
        headers := [("set-cookie", ["a=1", "b=2"]), ("content-type", ["text/plain"])],
        body := Body.Str [0x6F, 0x6B] } (by simp)).2.2.1 "set-cookie" ["a=1", "b=2"]
      (by decide)⟩

/-! ## Replay lookup (src/lib.rs:90-99)

The replay arm of `VcrMiddleware::handle` scans the cassette's request
vector with `requests.iter().position(|x| x == &request)`; on a hit it
indexes the response vector and reconstructs a live response, on a miss it
executes `todo!()` (src/lib.rs:97), which panics.  The real network call
(`next.run`) is never reached on the replay arm. -/

/-- `Iterator::position` over the request vector: index of the first
request equal (as `VcrRequest`) to the probe. -/
def positionEq (reqs : List VcrRequest) (request : VcrRequest) : Option Nat :=
  match reqs with
  | [] => none
  | x :: rest =>
    if vcrRequestEq x request then some 0
    else (positionEq rest request).map (· + 1)

/-- Outcome of the replay arm of `handle`: a reconstructed response, the
`todo!()` panic on a miss, a panic from out-of-bounds response indexing, or
a pass-through to the real network call (present in the outcome type only
to state that the replay arm never produces it). -/
inductive ReplayStep where
  | reply (r : HttpResponse)
  | todoPanic
  | indexPanic
  | passThrough
deriving DecidableEq, Repr

/-- Replay arm of `VcrMiddleware::handle` (src/lib.rs:90-99) for one
cassette's `(Vec<VcrRequest>, Vec<VcrResponse>)` pair. -/
def replayHandle (requests : List VcrRequest) (responses : List VcrResponse)
    (request : VcrRequest) : ReplayStep :=
  match positionEq requests request with
  | some pos =>
    match responses.get? pos with
    | some resp => .reply (responseFromVcr resp)
    | none => .indexPanic
  | none => .todoPanic

theorem positionEq_none (reqs : List VcrRequest) (R : VcrRequest)
    (hmiss : ∀ x ∈ reqs, vcrRequestEq x R = false) :
    positionEq reqs R = none := by
  induction reqs with
  | nil => rfl
  | cons x rest ih =>
    rw [positionEq, if_neg (by rw [hmiss x (List.mem_cons_self _ _)]; simp),
      ih (fun y hy => hmiss y (List.mem_cons_of_mem _ hy))]
    rfl

theorem positionEq_first (reqs : List VcrRequest) (R : VcrRequest) (k : Nat)
    (hk : k < reqs.length)
    (hmatch : vcrRequestEq (reqs.get ⟨k, hk⟩) R = true)
    (hfirst : ∀ i (hi : i < k),
      vcrRequestEq (reqs.get ⟨i, Nat.lt_trans hi hk⟩) R = false) :
    positionEq reqs R = some k := by
  induction reqs generalizing k with
  | nil => exact absurd hk (Nat.not_lt_zero k)
  | cons x rest ih =>
    cases k with
    | zero =>
      have hx : vcrRequestEq x R = true := hmatch
      rw [positionEq, if_pos hx]
    | succ j =>
      have hx : vcrRequestEq x R = false := hfirst 0 (Nat.succ_pos j)
      rw [positionEq, if_neg (by rw [hx]; simp),
        ih j (Nat.lt_of_succ_lt_succ hk) hmatch
          (fun i hi => hfirst (i + 1) (Nat.succ_lt_succ hi))]
      rfl

/-- C1: in Replay mode a request with no structurally equal recorded
interaction drives `handle` into the `todo!()` panic rather than a typed
no-match error; no pass-through to the real network call happens either.
(The source marks the miss arm `todo!() // Return error? Panic?`; the
claimed typed failure does not exist in the code.) -/
theorem replay_miss_is_todo_panic (reqs : List VcrRequest)
    (resps : List VcrResponse) (R : VcrRequest)
    (hmiss : ∀ x ∈ reqs, vcrRequestEq x R = false) :
    replayHandle reqs resps R = .todoPanic ∧
    replayHandle reqs resps R ≠ .passThrough := by
  rw [replayHandle, positionEq_none reqs R hmiss]
  exact ⟨rfl, by simp⟩

/-- Requests and responses used in concrete witnesses and counterexamples. -/
def cexReq : VcrRequest :=
  { method := "GET", url := "https://example.com/", headers := [], body := .Str [] }

def cexReq2 : VcrRequest :=
  { method := "POST", url := "https://example.com/", headers := [], body := .Str [] }

def cexS0 : VcrResponse :=
  { status := 200, version := none, headers := [], body := .Str [] }

def cexS1 : VcrResponse :=
  { status := 201, version := none, headers := [], body := .Str [] }

def cexS2 : VcrResponse :=
  { status := 202, version := none, headers := [], body := .Str [] }

/-- Witness for `replay_miss_is_todo_panic`: the empty cassette misses on
the concrete GET request. -/
theorem replay_miss_is_todo_panic_witness :
    replayHandle [] [] cexReq = .todoPanic ∧
    replayHandle [] [] cexReq ≠ .passThrough :=
  replay_miss_is_todo_panic [] [] cexReq (fun x hx => absurd hx (List.not_mem_nil x))

/-- C2 as stated: whenever the request matches the recorded requests at two
positions `k < j`, the lookup reportedly returns the response recorded at
position `k` — quantified over all such pairs, including pairs where an
even earlier position also matches. -/
def firstMatchClaim : Prop :=
  ∀ (reqs : List VcrRequest) (resps : List VcrResponse) (R : VcrRequest)
    (k j : Nat) (hk : k < reqs.length) (hj : j < reqs.length)
    (hkr : k < resps.length),
    k < j →
    vcrRequestEq (reqs.get ⟨k, hk⟩) R = true →
    vcrRequestEq (reqs.get ⟨j, hj⟩) R = true →
    replayHandle reqs resps R = .reply (responseFromVcr (resps.get ⟨k, hkr⟩))

/-- C2 counterexample: with three identical recorded requests and three
distinct responses, pick `k = 1`, `j = 2`; the probe matches both, yet the
scan returns the response at position 0, not position `k = 1`. -/
theorem replay_first_match_cex : ¬ firstMatchClaim := by
  intro h
  have h1 := h [cexReq, cexReq, cexReq] [cexS0, cexS1, cexS2] cexReq 1 2
    (by decide) (by decide) (by decide) (by decide) (by decide) (by decide)
  exact absurd h1 (by decide)

/-- C2 (amended): when `k` is the index of the *first* recorded request
structurally equal to the probe (no earlier index matches), the replay scan
returns the response recorded at `k`, regardless of any later matching
index `j > k`; the scan is a linear first-match walk in recorded order
under exact structural equality of method, URL, headers and body. -/
theorem replay_first_match (reqs : List VcrRequest) (resps : List VcrResponse)
    (R : VcrRequest) (k : Nat) (hk : k < reqs.length) (hkr : k < resps.length)
    (hmatch : vcrRequestEq (reqs.get ⟨k, hk⟩) R = true)
    (hfirst : ∀ i (hi : i < k),
      vcrRequestEq (reqs.get ⟨i, Nat.lt_trans hi hk⟩) R = false) :
    replayHandle reqs resps R = .reply (responseFromVcr (resps.get ⟨k, hkr⟩)) := by
  simp only [replayHandle, positionEq_first reqs R k hk hmatch hfirst,
    List.get?_eq_get hkr]

/-- Witness for `replay_first_match`: the probe misses the POST at index 0
and matches the GET at index 1; the scan returns the second response. -/
theorem replay_first_match_witness :
    replayHandle [cexReq2, cexReq] [cexS0, cexS1] cexReq
      = .reply (responseFromVcr cexS1) :=
  replay_first_match [cexReq2, cexReq] [cexS0, cexS1] cexReq 1
    (by decide) (by decide) (by decide)
    (fun i hi => by
      have h0 : i = 0 := by omega
      subst h0
      show vcrRequestEq cexReq2 cexReq = false
      decide)

/-! ## Cassette loading (src/lib.rs:106-152)

The replay branch of `VcrMiddleware::new` reads the whole cassette file,
splits it into YAML documents on the separator, deserializes each document
into a `(SerdeWrapper, SerdeWrapper)` pair (`serde_yaml::from_str` failures
propagate with `?` as `VcrError::Parse`), asserts the first component is a
tagged `Request` and the second a tagged `Response` (`panic!` otherwise),
and pushes request and response in lockstep; only after every document
succeeds is the pair of vectors inserted into the global `CASSETTES` map.
The YAML grammar itself is an external detail; a document stream is
modelled as the list of per-document deserialization outcomes, `none`
standing for a document the deserializer rejects. -/

/-- `enum SerdeWrapper { Request(VcrRequest), Response(VcrResponse) }`
(src/lib.rs:291-295). -/
inductive SerdeWrapper where
  | request (r : VcrRequest)
  | response (r : VcrResponse)
deriving DecidableEq, Repr

/-- The deserialization outcome of one cassette document: `none` when
`serde_yaml::from_str` fails, otherwise the decoded wrapper pair. -/
abbrev Doc := Option (SerdeWrapper × SerdeWrapper)

/-- Outcome of the document loop of `VcrMiddleware::new`
(src/lib.rs:124-138). -/
inductive LoadResult where
  | ok (requests : List VcrRequest) (responses : List VcrResponse)
  | parseError
  | panicked (msg : String)
deriving DecidableEq, Repr

/-- The document loop: a deserialization failure returns `VcrError::Parse`
via `?`; a first component that is not `Request` hits
`panic!("Invalid request")`, a second that is not `Response` hits
`panic!("Invalid response")`; otherwise the pair is pushed and the loop
continues. -/
def loadDocs : List Doc → List VcrRequest → List VcrResponse → LoadResult
  | [], reqs, resps => .ok reqs resps
  | none :: _, _, _ => .parseError
  | some (w1, w2) :: rest, reqs, resps =>
    match w1 with
    | .request r =>
      match w2 with
      | .response s => loadDocs rest (reqs ++ [r]) (resps ++ [s])
      | .request _ => .panicked "Invalid response"
    | .response _ => .panicked "Invalid request"

/-- The global `CASSETTES` map (src/lib.rs:36-38), as an association list
from cassette path to the loaded `(Vec<VcrRequest>, Vec<VcrResponse>)`. -/
abbrev Store := List (String × (List VcrRequest × List VcrResponse))

/-- `HashMap::contains_key` / `HashMap::get` over the cassette store. -/
def storeLookup (s : Store) (path : String) :
    Option (List VcrRequest × List VcrResponse) :=
  match s with
  | [] => none
  | (p, c) :: rest => if p = path then some c else storeLookup rest path

/-- Result of the replay branch of `VcrMiddleware::new`, carrying the
cassette store it leaves behind. -/
inductive NewReplayResult where
  | ok (store : Store)
  | parseError (store : Store)
  | panicked (msg : String) (store : Store)
deriving DecidableEq, Repr

/-- Replay branch of `VcrMiddleware::new` (src/lib.rs:112-141): when the
path is already a key of `CASSETTES` nothing happens; otherwise the file is
read (the Boolean records whether this file I/O was performed) and the
document loop runs, and only a fully successful loop inserts the new entry.
`docs` is the document stream the file currently holds. -/
def newReplay (store : Store) (path : String) (docs : List Doc) :
    Bool × NewReplayResult :=
  if (storeLookup store path).isSome then (false, .ok store)
  else
    match loadDocs docs [] [] with
    | .ok reqs resps => (true, .ok (store ++ [(path, (reqs, resps))]))
    | .parseError => (true, .parseError store)
    | .panicked m => (true, .panicked m store)

theorem loadDocs_ok_forall (docs : List Doc) (reqs : List VcrRequest)
    (resps : List VcrResponse) (rs : List VcrRequest) (ss : List VcrResponse)
    (h : loadDocs docs reqs resps = .ok rs ss) :
    ∀ d ∈ docs, ∃ r s, d = some (.request r, .response s) := by
  induction docs generalizing reqs resps with
  | nil => intro d hd; exact absurd hd (List.not_mem_nil d)
  | cons d0 rest ih =>
    intro d hd
    rcases d0 with _ | ⟨w1, w2⟩
    · simp [loadDocs] at h
    · rcases w1 with r | r
      · rcases w2 with r2 | s
        · simp [loadDocs] at h
        · rcases List.mem_cons.mp hd with h1 | h1
          · exact ⟨r, s, by rw [h1]⟩
          · simp only [loadDocs] at h
            exact ih _ _ h d h1
      · simp [loadDocs] at h

theorem loadDocs_wellformed (docs : List Doc) (reqs : List VcrRequest)
    (resps : List VcrResponse)
    (hwf : ∀ d ∈ docs, d ≠ none → ∃ r s, d = some (.request r, .response s)) :
    (∃ rs ss, loadDocs docs reqs resps = .ok rs ss) ∨
      loadDocs docs reqs resps = .parseError := by
  induction docs generalizing reqs resps with
  | nil => exact .inl ⟨reqs, resps, rfl⟩
  | cons d0 rest ih =>
    rcases d0 with _ | ⟨w1, w2⟩
    · exact .inr rfl
    · obtain ⟨r, s, hd⟩ := hwf (some (w1, w2)) (List.mem_cons_self _ _) (by simp)
      injection hd with hd
      obtain ⟨h1, h2⟩ := Prod.mk.injEq .. ▸ hd
      subst h1; subst h2
      simp only [loadDocs]
      exact ih _ _ (fun d hd hne => hwf d (List.mem_cons_of_mem _ hd) hne)

theorem loadDocs_lockstep (docs : List Doc) (reqs : List VcrRequest)
    (resps : List VcrResponse) (rs : List VcrRequest) (ss : List VcrResponse)
    (hlen : reqs.length = resps.length)
    (h : loadDocs docs reqs resps = .ok rs ss) :
    rs.length = ss.length := by
  induction docs generalizing reqs resps with
  | nil =>
    simp only [loadDocs] at h
    injection h with h1 h2
    subst h1; subst h2
    exact hlen
  | cons d0 rest ih =>
    rcases d0 with _ | ⟨w1, w2⟩
    · simp [loadDocs] at h
    · rcases w1 with r | r
      · rcases w2 with r2 | s
        · simp [loadDocs] at h
        · simp only [loadDocs] at h
          exact ih _ _ (by simp [hlen]) h
      · simp [loadDocs] at h

theorem storeLookup_append (s : Store) (path : String)
    (c : List VcrRequest × List VcrResponse)
    (h : storeLookup s path = none) :
    storeLookup (s ++ [(path, c)]) path = some c := by
  induction s with
  | nil => simp [storeLookup]
  | cons p rest ih =>
    obtain ⟨q, d⟩ := p
    by_cases hq : q = path
    · rw [storeLookup, if_pos hq] at h
      cases h
    · rw [storeLookup, if_neg hq] at h
      rw [List.cons_append, storeLookup, if_neg hq]
      exact ih h

/-- C5 as stated: whenever the document stream holds any document that does
not decode into a well-formed Interaction (a tagged request followed by a
tagged response), the load reportedly fails with the typed Parse error and
installs no entry. -/
def allOrNothingClaim : Prop :=
  ∀ (store : Store) (path : String) (docs : List Doc),
    storeLookup store path = none →
    (∃ d ∈ docs, ∀ r s, d ≠ some (.request r, .response s)) →
    newReplay store path docs = (true, .parseError store)

/-- C5 counterexample: a single document that deserializes as
`(Response(..), Request(..))` — decodable YAML, but not a well-formed
Interaction — drives the load into `panic!("Invalid request")`, not into
the typed `VcrError::Parse`. -/
theorem cassette_load_cex : ¬ allOrNothingClaim := by
  intro h
  have h1 := h [] "cassette.yaml" [some (.response cexS0, .request cexReq)] rfl
    ⟨some (.response cexS0, .request cexReq), List.mem_cons_self _ _, by simp⟩
  exact absurd h1 (by decide)

/-- C5 (amended): a load that hits any document not decoding into a
well-formed Interaction installs no (partial) cassette entry: it ends in
either the typed Parse error or one of the two `panic!` calls, in both
cases returning the store unchanged; and when every document that the
deserializer accepts is a well-formed Interaction (so the offending
document is a deserialization failure), the outcome is exactly the typed
Parse error with the store unchanged. -/
theorem cassette_load_no_partial (store : Store) (path : String)
    (docs : List Doc) (hmiss : storeLookup store path = none)
    (hbad : ∃ d ∈ docs, ∀ r s, d ≠ some (.request r, .response s)) :
    (newReplay store path docs = (true, .parseError store) ∨
      ∃ m, newReplay store path docs = (true, .panicked m store)) ∧
    ((∀ d ∈ docs, d ≠ none → ∃ r s, d = some (.request r, .response s)) →
      newReplay store path docs = (true, .parseError store)) := by
  have hp : ¬ (storeLookup store path).isSome = true := by rw [hmiss]; simp
  constructor
  · rw [newReplay, if_neg hp]
    cases hl : loadDocs docs [] [] with
    | ok rs ss =>
      obtain ⟨d, hd, hne⟩ := hbad
      obtain ⟨r, s, hrs⟩ := loadDocs_ok_forall docs [] [] rs ss hl d hd
      exact absurd hrs (hne r s)
    | parseError => exact .inl rfl
    | panicked m => exact .inr ⟨m, rfl⟩
  · intro hwf
    rw [newReplay, if_neg hp]
    rcases loadDocs_wellformed docs [] [] hwf with ⟨rs, ss, hl⟩ | hl
    · obtain ⟨d, hd, hne⟩ := hbad
      obtain ⟨r, s, hrs⟩ := loadDocs_ok_forall docs [] [] rs ss hl d hd
      exact absurd hrs (hne r s)
    · rw [hl]

/-- Witness for `cassette_load_no_partial`: a stream whose second document
fails to deserialize, after a well-formed first document; the load ends in
the typed Parse error and the empty store stays empty. -/
theorem cassette_load_no_partial_witness :
    (newReplay [] "c.yaml" [some (.request cexReq, .response cexS0), none]
        = (true, .parseError []) ∨
      ∃ m, newReplay [] "c.yaml" [some (.request cexReq, .response cexS0), none]
        = (true, .panicked m [])) ∧
    ((∀ d ∈ [some (SerdeWrapper.request cexReq, SerdeWrapper.response cexS0),
        (none : Doc)], d ≠ none →
        ∃ r s, d = some (.request r, .response s)) →
      newReplay [] "c.yaml" [some (.request cexReq, .response cexS0), none]
        = (true, .parseError [])) :=
  cassette_load_no_partial [] "c.yaml"
    [some (.request cexReq, .response cexS0), none] rfl
    ⟨none, by simp, by simp⟩

/-- C6: loading a path already present in the cassette store performs no
file I/O (the `Bool` component is `false`) and leaves the store — hence the
stored interaction list — unchanged, whatever the file now holds (`docs2`
is unconstrained); so after any successful load, a second construction for
the same path reads nothing and observes the identical interaction list. -/
theorem cassette_load_idempotent (store : Store) (path : String)
    (docs docs2 : List Doc) (s2 : Store) (b : Bool)
    (h : newReplay store path docs = (b, .ok s2)) :
    newReplay s2 path docs2 = (false, .ok s2) ∧
    (storeLookup s2 path).isSome = true := by
  by_cases hp : (storeLookup store path).isSome
  · rw [newReplay, if_pos hp] at h
    injection h with h1 h2
    injection h2 with h2
    subst h2
    exact ⟨by rw [newReplay, if_pos hp], hp⟩
  · rw [newReplay, if_neg hp] at h
    cases hl : loadDocs docs [] [] with
    | ok rs ss =>
      rw [hl] at h
      injection h with h1 h2
      injection h2 with h2
      subst h2
      have hnone : storeLookup store path = none :=
        Option.not_isSome_iff_eq_none.mp hp
      have hx := storeLookup_append store path (rs, ss) hnone
      have hps : (storeLookup (store ++ [(path, (rs, ss))]) path).isSome = true := by
        rw [hx]; rfl
      exact ⟨by rw [newReplay, if_pos hps], hps⟩
    | parseError =>
      rw [hl] at h
      injection h with h1 h2
      cases h2
    | panicked m =>
      rw [hl] at h
      injection h with h1 h2
      cases h2

/-- Witness for `cassette_load_idempotent`: load a one-interaction cassette
into the empty store, then load the same path again against a stream that
would not even parse; the second load reads nothing and returns the same
store. -/
theorem cassette_load_idempotent_witness :
    newReplay [("c.yaml", ([cexReq], [cexS0]))] "c.yaml" [none]
        = (false, .ok [("c.yaml", ([cexReq], [cexS0]))]) ∧
    (storeLookup [("c.yaml", ([cexReq], [cexS0]))] "c.yaml").isSome = true :=
  cassette_load_idempotent [] "c.yaml"
    [some (.request cexReq, .response cexS0)] [none]
    [("c.yaml", ([cexReq], [cexS0]))] true (by decide)

/-- The lockstep invariant of the cassette store: every entry's request
vector and response vector have the same length. -/
def StoreWF (store : Store) : Prop :=
  ∀ e ∈ store, e.2.1.length = e.2.2.length

theorem positionEq_lt_length (reqs : List VcrRequest) (R : VcrRequest)
    (pos : Nat) (h : positionEq reqs R = some pos) : pos < reqs.length := by
  induction reqs generalizing pos with
  | nil => cases h
  | cons x rest ih =>
    rw [positionEq] at h
    by_cases hx : vcrRequestEq x R = true
    · rw [if_pos hx] at h
      injection h with h1
      subst h1
      exact Nat.succ_pos _
    · rw [if_neg hx] at h
      cases hq : positionEq rest R with
      | none => rw [hq] at h; cases h
      | some q =>
        rw [hq] at h
        injection h with h1
        subst h1
        exact Nat.succ_lt_succ (ih q hq)

/-- C10: the loaded request and response vectors are pushed in lockstep, so
every store entry a successful load leaves behind has vectors of equal
length, and on such an entry the replay arm's response indexing is always
in bounds — `handle` can never fail with an out-of-bounds index panic. -/
theorem cassette_lockstep_inbounds (store : Store) (path : String)
    (docs : List Doc) (s2 : Store) (b : Bool)
    (hwf : StoreWF store)
    (h : newReplay store path docs = (b, .ok s2)) :
    StoreWF s2 ∧
    ∀ e ∈ s2, ∀ R, replayHandle e.2.1 e.2.2 R ≠ .indexPanic := by
  have key : ∀ (reqs : List VcrRequest) (resps : List VcrResponse)
      (R : VcrRequest), reqs.length = resps.length →
      replayHandle reqs resps R ≠ .indexPanic := by
    intro reqs resps R hlen
    rw [replayHandle]
    cases hpos : positionEq reqs R with
    | none => simp
    | some pos =>
      have hlt : pos < resps.length := hlen ▸ positionEq_lt_length reqs R pos hpos
      simp [List.getElem?_eq_getElem hlt]
  have hwf2 : StoreWF s2 := by
    by_cases hp : (storeLookup store path).isSome
    · rw [newReplay, if_pos hp] at h
      injection h with h1 h2
      injection h2 with h2
      subst h2
      exact hwf
    · rw [newReplay, if_neg hp] at h
      cases hl : loadDocs docs [] [] with
      | ok rs ss =>
        rw [hl] at h
        injection h with h1 h2
        injection h2 with h2
        subst h2
        intro e he
        rcases List.mem_append.mp he with h1 | h1
        · exact hwf e h1
        · rcases List.mem_singleton.mp h1 with rfl
          exact loadDocs_lockstep docs [] [] rs ss rfl hl
      | parseError =>
        rw [hl] at h
        injection h with h1 h2
        cases h2
      | panicked m =>
        rw [hl] at h
        injection h with h1 h2
        cases h2
  exact ⟨hwf2, fun e he R => key e.2.1 e.2.2 R (hwf2 e he)⟩

/-- Witness for `cassette_lockstep_inbounds`: load one interaction into the
empty (vacuously well-formed) store. -/
theorem cassette_lockstep_inbounds_witness :
    StoreWF [("c.yaml", ([cexReq], [cexS0]))] ∧
    ∀ e ∈ [("c.yaml", ([cexReq], [cexS0]))], ∀ R,
      replayHandle e.2.1 e.2.2 R ≠ .indexPanic :=
  cassette_lockstep_inbounds [] "c.yaml"
    [some (.request cexReq, .response cexS0)]
    [("c.yaml", ([cexReq], [cexS0]))] true
    (fun e he => absurd he (List.not_mem_nil e)) (by decide)

/-! ## Recorder registry (src/lib.rs:43-44, 142-148)

The global `RECORDERS` map sends a cassette path to the `Mutex<()>`
guarding appends to that file.  Each `Mutex::new(())` is a distinct lock
object, so lock identity matters: waiters on one mutex do not serialize
with holders of another.  Identity is modelled by numbering the mutexes
with a counter that grows by one at each `Mutex::new`. -/

/-- The `RECORDERS` map together with the next fresh lock number. -/
structure RecRegistry where
  entries : List (String × Nat)
  nextLockId : Nat
deriving DecidableEq, Repr

/-- `HashMap::get` over the recorder entries: the lock currently guarding a
path, as `handle` looks it up at append time (`&recorders[&self.file]`,
src/lib.rs:76). -/
def regLookup (es : List (String × Nat)) (path : String) : Option Nat :=
  match es with
  | [] => none
  | (p, i) :: rest => if p = path then some i else regLookup rest path

/-- `HashMap::insert`: replaces the value of an existing key, otherwise
adds the entry. -/
def insertReplace (es : List (String × Nat)) (path : String) (v : Nat) :
    List (String × Nat) :=
  match es with
  | [] => [(path, v)]
  | (p, i) :: rest =>
    if p = path then (p, v) :: rest
    else (p, i) :: insertReplace rest path v

/-- Record branch of `VcrMiddleware::new` (src/lib.rs:142-148):
`recorders.insert(recording.clone(), Mutex::new(()))` — an unconditional
insert of a freshly created mutex, with no `contains_key` check. -/
def registerRecorder (reg : RecRegistry) (path : String) : RecRegistry :=
  { entries := insertReplace reg.entries path reg.nextLockId
    nextLockId := reg.nextLockId + 1 }

/-- C7 as stated: when a lock entry for the path already exists,
constructing another Record-mode middleware for the same path reportedly
leaves that entry in place. -/
def registerIdempotentClaim : Prop :=
  ∀ (reg : RecRegistry) (path : String) (id0 : Nat),
    regLookup reg.entries path = some id0 →
    regLookup (registerRecorder reg path).entries path = some id0

/-- C7 counterexample: a registry already holding lock 0 for `"c.yaml"`;
registering the path again replaces the entry with the fresh lock 1, so the
existing lock entry is not left in place. -/
theorem register_not_idempotent_cex : ¬ registerIdempotentClaim := by
  intro h
  have h1 := h ⟨[("c.yaml", 0)], 1⟩ "c.yaml" 0 (by decide)
  exact absurd h1 (by decide)

/-- C7 (amended): constructing a Record-mode middleware unconditionally
installs a freshly created exclusive lock for the path, replacing any lock
entry already there (entries for other paths are untouched); instances
pointed at the same path serialize their appends through whichever lock the
registry currently holds for that path, since `handle` looks the lock up at
append time.  The hypothesis is the counter invariant that every installed
lock number predates the next fresh one. -/
theorem register_inserts_fresh_lock (reg : RecRegistry) (path : String)
    (hwf : ∀ e ∈ reg.entries, e.2 < reg.nextLockId) :
    regLookup (registerRecorder reg path).entries path = some reg.nextLockId ∧
    (∀ e ∈ reg.entries, e.2 ≠ reg.nextLockId) ∧
    (∀ q, q ≠ path →
      regLookup (registerRecorder reg path).entries q = regLookup reg.entries q) := by
  refine ⟨?_, fun e he => Nat.ne_of_lt (hwf e he), fun q hq => ?_⟩
  · show regLookup (insertReplace reg.entries path reg.nextLockId) path = _
    generalize reg.entries = es
    induction es with
    | nil => simp [insertReplace, regLookup]
    | cons p rest ih =>
      obtain ⟨p0, i0⟩ := p
      by_cases hp : p0 = path
      · rw [insertReplace, if_pos hp, regLookup, if_pos hp]
      · rw [insertReplace, if_neg hp, regLookup, if_neg hp]
        exact ih
  · show regLookup (insertReplace reg.entries path reg.nextLockId) q = _
    generalize reg.entries = es
    induction es with
    | nil => simp [insertReplace, regLookup, Ne.symm hq]
    | cons p rest ih =>
      obtain ⟨p0, i0⟩ := p
      by_cases hp : p0 = path
      · subst hp
        rw [insertReplace, if_pos rfl, regLookup, regLookup,
          if_neg (fun h => hq h.symm), if_neg (fun h => hq h.symm)]
      · rw [insertReplace, if_neg hp]
        by_cases hq0 : p0 = q
        · rw [regLookup, if_pos hq0, regLookup, if_pos hq0]
        · rw [regLookup, if_neg hq0, regLookup, if_neg hq0]
          exact ih

/-- Witness for `register_inserts_fresh_lock` on a registry already holding
lock 0 for another path. -/
theorem register_inserts_fresh_lock_witness :
    regLookup (registerRecorder ⟨[("a.yaml", 0)], 1⟩ "c.yaml").entries "c.yaml"
        = some 1 ∧
    (∀ e ∈ [("a.yaml", 0)], e.2 ≠ 1) ∧
    (∀ q, q ≠ "c.yaml" →
      regLookup (registerRecorder ⟨[("a.yaml", 0)], 1⟩ "c.yaml").entries q
        = regLookup [("a.yaml", 0)] q) :=
  register_inserts_fresh_lock ⟨[("a.yaml", 0)], 1⟩ "c.yaml" (by decide)

/-! ## Record-mode append (src/lib.rs:64-88)

The record arm of `handle` is straight-line effectful code; it is embedded
as the trace of its effectful calls in program order:
`let lock = m.lock().await` (acquire the path's exclusive lock),
`OpenOptions::new().create(true).append(true).open(&self.file)` (open in
append/create mode — never truncating),
`file.write_all(doc.as_bytes())` (write the serialized document; this is
the only write — no separate separator write and no `flush` call appears in
the source), `drop(lock)` (release the lock), and the end of the match arm
scope closing `file` — after the lock has already been released. -/

/-- One effectful call of the record arm. -/
inductive RecEvent where
  | acquireLock
  | openAppendCreate
  | writeAll (doc : String)
  | flush
  | releaseLock
  | closeFile
deriving DecidableEq, Repr

/-- The record arm's effect trace (src/lib.rs:75-88) for the serialized
document `doc`. -/
def recordTrace (doc : String) : List RecEvent :=
  [.acquireLock, .openAppendCreate, .writeAll doc, .releaseLock, .closeFile]

/-- C8 as stated: the record arm reportedly flushes the write and only then
releases the lock — a `flush` event occurs, and the release strictly after
it. -/
def appendStepsClaim : Prop :=
  ∀ doc : String, ∃ pre post,
    recordTrace doc = pre ++ RecEvent.flush :: post ∧
    RecEvent.releaseLock ∉ pre ∧ RecEvent.releaseLock ∈ post

/-- C8 counterexample: the trace of the record arm contains no flush event
at all (the source never calls `flush`), so no split around a flush
exists. -/
theorem record_no_flush_cex : ¬ appendStepsClaim := by
  intro h
  obtain ⟨pre, post, heq, -, -⟩ := h "doc"
  have hmem : RecEvent.flush ∈ recordTrace "doc" := by
    rw [heq]
    exact List.mem_append_right pre (List.mem_cons_self _ _)
  exact absurd hmem (by decide)

/-- C8 (amended): for every serialized interaction the record arm acquires
the path's lock, opens the cassette file in append/create mode (never
truncating), performs the single `write_all` of the serialized document
while the lock is held, then releases the lock with no flush call anywhere
in the arm; the file is closed only after the lock is released, so the
buffered write may still be flushed outside the lock. -/
theorem record_trace_order (doc : String) :
    recordTrace doc =
      [.acquireLock, .openAppendCreate, .writeAll doc, .releaseLock, .closeFile] ∧
    RecEvent.flush ∉ recordTrace doc ∧
    (∀ d, RecEvent.writeAll d ∈ recordTrace doc → d = doc) := by
  refine ⟨rfl, by simp [recordTrace], fun d hd => ?_⟩
  simp [recordTrace] at hd
  exact hd

/-! ## Capture (src/lib.rs:186-219 and 231-265)

`VcrRequest::from_request` and `VcrResponse::try_from_response` copy the
headers name by name (per-name value order preserved), take the full body
out of the live object, classify its bytes, and put the original bytes
back with `set_body`.  The live request is modelled like the live
response; both capture functions return the captured value together with
the live object as it stands after capture. -/

/-- The live `surf::Request` as far as the middleware reads or writes it. -/
structure HttpRequest where
  method : String
  url : String
  headers : HeaderMap
  body : List Nat
deriving DecidableEq, Repr

/-- `VcrRequest::from_request` (src/lib.rs:186-219), success path: copy the
headers, `take_body().into_bytes()` (which leaves the live body empty),
classify the bytes with `Body::from`, `set_body` the original bytes back,
and build the captured request from the live method, url, copied headers
and classified body.  Returns (captured request, live request after
capture). -/
def fromRequest (req : HttpRequest) : VcrRequest × HttpRequest :=
  let capturedHeaders := req.headers
  let taken := (req.body, { req with body := ([] : List Nat) })
  let body := Body.ofBytes taken.1
  let req2 := { taken.2 with body := taken.1 }
  ({ method := req2.method, url := req2.url,
     headers := capturedHeaders, body := body }, req2)

/-- `VcrResponse::try_from_response` (src/lib.rs:231-265), success path:
copy the headers, `body_bytes()` (which consumes the live body), classify,
`set_body` the original bytes back, and build the captured response from
the live status, version, copied headers and classified body. -/
def tryFromResponse (resp : HttpResponse) : VcrResponse × HttpResponse :=
  let capturedHeaders := resp.headers
  let taken := (resp.body, { resp with body := ([] : List Nat) })
  let body := Body.ofBytes taken.1
  let resp2 := { taken.2 with body := taken.1 }
  ({ status := resp2.status, version := resp2.version,
     headers := capturedHeaders, body := body }, resp2)

/-- C9: capture is observationally transparent.  After capturing, the live
request (and live response) is exactly what it was before — the body bytes
are restored and method, url, headers, status and version are untouched —
while the captured value holds the same method, url and headers and the
classified body of the original bytes. -/
theorem capture_transparent (req : HttpRequest) (resp : HttpResponse) :
    (fromRequest req).2 = req ∧
    (fromRequest req).1 =
      { method := req.method, url := req.url, headers := req.headers,
        body := Body.ofBytes req.body } ∧
    (tryFromResponse resp).2 = resp ∧
    (tryFromResponse resp).1 =
      { status := resp.status, version := resp.version,
        headers := resp.headers, body := Body.ofBytes resp.body } :=
  ⟨rfl, rfl, rfl, rfl⟩

end SurfVcr
